import Mathlib

/-!
# Verification of the GeeRPC client multiplexer

Shallow embedding of the GeeRPC RPC client (`client.go` of Mytwh/GeeRPC)
and of the codec-facing parts it uses.  Go pointers to `Call` records are
modelled as indices (`Nat`) into a heap `calls : List CallRec`; the Go map
`pending : map[uint64]*Call` is modelled as an association list with
insert-replaces-key semantics; `uint64` arithmetic is `Nat` arithmetic
modulo `2^64`.  Codec I/O results (header reads, body reads, write
outcomes) are parameters of the embedded functions, since the codec is an
external collaborator.  Each lock-protected critical section of the Go
code becomes one atomic state transformation; the `sending` mutex is
reflected by making the whole of `send` and the whole of `terminateCalls`
single atomic actions in the trace model, and the `mu` mutex by making
`registerCall` / `removeCall` / the flag reads single atomic steps.
-/

namespace GeeRPC

/-- 2^64, the modulus of Go `uint64` arithmetic. -/
def U64 : Nat := 18446744073709551616

/-- Errors, modelling Go `error` values by their message.  `shutdown` is
the distinguished `ErrShutdown = errors.New("connection is shut down")`. -/
inductive GoError where
  | shutdown
  | str (msg : String)
deriving DecidableEq, Repr

/-- The message of an error, as `err.Error()` would return it. -/
def GoError.msg : GoError → String
  | .shutdown => "connection is shut down"
  | .str s => s

/-- A Go channel of `*Call`, identified by an allocation id and its capacity. -/
structure Chan where
  id : Nat
  cap : Nat
deriving DecidableEq, Repr

/-- The `Call` struct: one in-flight RPC request.  `args` and `reply` are
opaque payloads (the client never inspects them); `doneCount` counts how
many times `call.done()` sent the call on its `Done` channel. -/
structure CallRec where
  seq : Nat
  serviceMethod : String
  args : Nat
  reply : Nat
  error : Option GoError
  doneCount : Nat
  ch : Chan
deriving DecidableEq, Repr

instance : Inhabited CallRec := ⟨⟨0, "", 0, 0, none, 0, ⟨0, 0⟩⟩⟩

/-- The codec `Header` struct. -/
structure Header where
  serviceMethod : String
  seq : Nat
  error : String
deriving DecidableEq, Repr

/-- Observable side effects of the client on the codec and on Done
channels, recorded as a ghost event log. -/
inductive Event where
  | wrote (seq : Nat) (serviceMethod : String)
  | codecClosed
  | signaled (cid : Nat)
deriving DecidableEq, Repr

/-- The mutable state of a `Client`:  sequence counter, pending table
(association list modelling `map[uint64]*Call`), lifecycle flags, the heap
of all `Call` records ever created (indices are the modelled pointers), a
fresh-channel counter for `make(chan *Call, _)`, and the ghost event log. -/
structure ClientState where
  seq : Nat
  pending : List (Nat × Nat)
  closing : Bool
  shutdown : Bool
  calls : List CallRec
  nextChan : Nat
  events : List Event
deriving DecidableEq, Repr

/-- The client produced by `newClientCodec`: `seq` starts at 1, empty
pending table, both flags clear. -/
def freshClient : ClientState :=
  { seq := 1, pending := [], closing := false, shutdown := false,
    calls := [], nextChan := 0, events := [] }

/-- Lookup in the modelled Go map. -/
def mapLookup (m : List (Nat × Nat)) (k : Nat) : Option Nat :=
  (m.find? (fun p => p.1 == k)).map (fun p => p.2)

/-- `delete(m, k)` on the modelled Go map. -/
def mapErase (m : List (Nat × Nat)) (k : Nat) : List (Nat × Nat) :=
  m.filter (fun p => p.1 != k)

/-- `m[k] = v` on the modelled Go map (replaces any entry with key `k`). -/
def mapInsert (m : List (Nat × Nat)) (k v : Nat) : List (Nat × Nat) :=
  (k, v) :: mapErase m k

/-- Dereference the modelled `*Call` pointer `cid`. -/
def getCall (s : ClientState) (cid : Nat) : CallRec :=
  s.calls.getD cid default

/-- Update the heap cell `cid` (no-op when out of range, matching a
pointer that was never allocated — never the case in reachable states). -/
def updCall (cs : List CallRec) (cid : Nat) (f : CallRec → CallRec) : List CallRec :=
  cs.set cid (f (cs.getD cid default))

/-- How many times `call.done()` has fired for the call at `cid`. -/
def doneCountOf (s : ClientState) (cid : Nat) : Nat :=
  (getCall s cid).doneCount

/-- `call.done()`: send the call on its `Done` channel (counted, logged). -/
def doneCall (s : ClientState) (cid : Nat) : ClientState :=
  { s with calls := updCall s.calls cid (fun c => { c with doneCount := c.doneCount + 1 }),
           events := s.events ++ [.signaled cid] }

/-- `call.Error = e`. -/
def setCallError (s : ClientState) (cid : Nat) (e : GoError) : ClientState :=
  { s with calls := updCall s.calls cid (fun c => { c with error := some e }) }

/-- The pervasive `call.Error = e; call.done()` pattern. -/
def resolveWith (s : ClientState) (cid : Nat) (e : GoError) : ClientState :=
  doneCall (setCallError s cid e) cid

/-- `Client.registerCall`: under `mu`, refuse when `closing || shutdown`,
else assign `call.Seq = client.seq`, insert into `pending`, and increment
the `uint64` counter (wrapping). -/
def registerCall (s : ClientState) (cid : Nat) : ClientState × Except GoError Nat :=
  if s.closing || s.shutdown then
    (s, .error .shutdown)
  else
    let assigned := s.seq
    ({ s with
        calls := updCall s.calls cid (fun c => { c with seq := assigned }),
        pending := mapInsert s.pending assigned cid,
        seq := (s.seq + 1) % U64 },
     .ok assigned)

/-- `Client.removeCall`: under `mu`, fetch `pending[seq]`, delete the key,
return the call (or `none`). -/
def removeCall (s : ClientState) (k : Nat) : ClientState × Option Nat :=
  ({ s with pending := mapErase s.pending k }, mapLookup s.pending k)

/-- `Client.terminateCalls`: under both locks, set `shutdown = true`, then
for every pending call set its error to the cause and signal it.  Note
the source does not delete the entries: the pending table is left as-is. -/
def terminateCalls (s : ClientState) (e : GoError) : ClientState :=
  s.pending.foldl (fun acc p => resolveWith acc p.2 e)
    { s with shutdown := true }

/-- `Client.Close`: fail with `ErrShutdown` if already `closing`, else mark
`closing` and close the codec, returning whatever `cc.Close()` returns
(`ccRes`, a parameter since the codec is external). -/
def closeClient (s : ClientState) (ccRes : Except GoError Unit) :
    ClientState × Except GoError Unit :=
  if s.closing then (s, .error .shutdown)
  else ({ s with closing := true, events := s.events ++ [.codecClosed] }, ccRes)

/-- `Client.IsAvailable`. -/
def isAvailable (s : ClientState) : Bool :=
  !s.shutdown && !s.closing

/-- `Client.send`: under the `sending` lock, register the call (on failure
resolve it with the error at once, no write), else populate the shared
header and write it; a failed write removes the call again and, when still
present, resolves it with the write error.  `w = none` means `cc.Write`
succeeded, `w = some e` that it failed with `e`. -/
def send (s : ClientState) (cid : Nat) (w : Option GoError) : ClientState :=
  match registerCall s cid with
  | (s1, .error e) => resolveWith s1 cid e
  | (s1, .ok assigned) =>
    let s2 := { s1 with events := s1.events ++ [.wrote assigned (getCall s1 cid).serviceMethod] }
    match w with
    | none => s2
    | some e =>
      match removeCall s2 assigned with
      | (s3, none) => s3
      | (s3, some cid2) => resolveWith s3 cid2 e

/-- Result of `Client.Go`: either `log.Panic` fired (carrying the state at
the moment of the panic, which is unchanged), or the call was submitted
and its handle returned. -/
inductive GoRes where
  | panic (s : ClientState)
  | ok (s : ClientState) (cid : Nat)
deriving DecidableEq, Repr

/-- The state carried by a `GoRes`. -/
def GoRes.st : GoRes → ClientState
  | .panic s => s
  | .ok s _ => s

/-- The returned call pointer of a successful `Go` (0 when panicked). -/
def GoRes.callId : GoRes → Nat
  | .panic _ => 0
  | .ok _ cid => cid

/-- Whether `Go` returned normally. -/
def GoRes.isOk : GoRes → Bool
  | .panic _ => false
  | .ok _ _ => true

/-- Shared tail of `Go`: build the `Call` record and hand it to `send`,
returning the call without waiting for completion. -/
def goBody (s : ClientState) (sm : String) (a r : Nat) (ch : Chan)
    (w : Option GoError) : GoRes :=
  let cid := s.calls.length
  let s1 := { s with calls := s.calls ++ [{ seq := 0, serviceMethod := sm, args := a,
                                            reply := r, error := none, doneCount := 0, ch := ch }] }
  .ok (send s1 cid w) cid

/-- `Client.Go`: a `nil` done channel is replaced by a fresh channel of
capacity 10; a zero-capacity caller channel panics before anything else
happens; otherwise the supplied channel is used. -/
def goCall (s : ClientState) (sm : String) (a r : Nat) (d : Option Chan)
    (w : Option GoError) : GoRes :=
  match d with
  | none =>
    let ch : Chan := ⟨s.nextChan, 10⟩
    goBody { s with nextChan := s.nextChan + 1 } sm a r ch w
  | some ch =>
    if ch.cap = 0 then .panic s
    else goBody s sm a r ch w

/-- The blocking receive `<-call.Done` of the synchronous `Call`: if the
call has already been resolved during submission the channel already holds
it and its current error is read; otherwise the caller blocks and the
oracle `eventual` supplies the error with which the receive loop or
termination later resolves it. -/
def awaitDone (s : ClientState) (cid : Nat) (eventual : Option GoError) :
    Option GoError :=
  if (getCall s cid).doneCount ≥ 1 then (getCall s cid).error else eventual

/-- `Client.Call`: `call := <-client.Go(sm, args, reply, make(chan *Call, 1)).Done;
return call.Error`, translated from the source. -/
def callSync (s : ClientState) (sm : String) (a r : Nat) (w : Option GoError)
    (eventual : Option GoError) : Option GoError × ClientState :=
  let ch : Chan := ⟨s.nextChan, 1⟩
  let s0 := { s with nextChan := s.nextChan + 1 }
  match goCall s0 sm a r (some ch) w with
  | .panic s1 => (none, s1)
  | .ok s1 cid => (awaitDone s1 cid eventual, s1)

/-- Modelled from the spec: "`Call(serviceMethod, args, reply) → error`:
equivalent to `Go` with a capacity-1 private channel, then block until
that channel yields the Call, and return its error."  Written from the
spec's words, to be compared against `callSync` (from the source). -/
def callSpec (s : ClientState) (sm : String) (a r : Nat) (w : Option GoError)
    (eventual : Option GoError) : Option GoError × ClientState :=
  let privateCh : Chan := ⟨s.nextChan, 1⟩
  let s0 := { s with nextChan := s.nextChan + 1 }
  match goCall s0 sm a r (some privateCh) w with
  | .panic s1 => (none, s1)
  | .ok s1 cid => (awaitDone s1 cid eventual, s1)

/-- One step of wire input to the receive loop: either the header read
fails, or a header arrives together with the outcome of the body read
that the loop will then perform (`none` = body read/decode succeeded). -/
inductive Frame where
  | hdrErr (e : GoError)
  | frame (h : Header) (bodyRes : Option GoError)
deriving DecidableEq, Repr

/-- One iteration of the receive loop body on one header: remove the call
for `h.Seq` and branch exactly as the source's `switch`.  The second
component is the loop variable `err` after the iteration (`some e` makes
`for err == nil` exit). -/
def recvStep (s : ClientState) (f : Frame) : ClientState × Option GoError :=
  match f with
  | .hdrErr e => (s, some e)
  | .frame h bodyRes =>
    match removeCall s h.seq with
    | (s1, none) => (s1, bodyRes)
    | (s1, some cid) =>
      if h.error ≠ "" then
        (doneCall (setCallError s1 cid (.str h.error)) cid, bodyRes)
      else
        match bodyRes with
        | none => (doneCall s1 cid, none)
        | some e =>
          (doneCall (setCallError s1 cid (.str ("reading body" ++ e.msg))) cid, some e)

/-- The receive loop over a finite prefix of wire input: `none` when the
input is exhausted with `err` still nil (the real loop would block on the
next header read), `some (s, e)` when the loop exited with error `e`. -/
def receiveRun (s : ClientState) : List Frame → Option (ClientState × GoError)
  | [] => none
  | f :: rest =>
    match recvStep s f with
    | (s1, none) => receiveRun s1 rest
    | (s1, some e) => some (s1, e)

/-- `Client.receive`: run the loop, then `terminateCalls(err)`. -/
def receive (s : ClientState) (fs : List Frame) : Option ClientState :=
  (receiveRun s fs).map (fun pr => terminateCalls pr.1 pr.2)

/-- The Option / handshake record.  Modelled from the spec: the `Option`
struct and `DefaultOption` live in the server half of the repository,
which is not under `src/`; the spec fixes them as {magicNumber: fixed
protocol constant; codecType: string tag} with a gob default. -/
structure GOption where
  MagicNumber : Nat
  CodecType : String
deriving DecidableEq, Repr

instance : Inhabited GOption := ⟨⟨0, ""⟩⟩

/-- Modelled from the spec: the protocol's fixed magic-number constant
(its concrete value is not under `src/`; any fixed value serves). -/
def magicNumberConst : Nat := 0x3bef5c

/-- Modelled from the spec: `DefaultOption`, the full default Option with
the fixed magic number and the gob codec tag. -/
def DefaultOption : GOption := ⟨magicNumberConst, "application/gob"⟩

/-- The result of `parseOptions`: the global `DefaultOption` pointer, or
the caller's own pointer `p` into the heap. -/
inductive ParsedOpt where
  | defaultOpt
  | ptr (p : Nat)
deriving DecidableEq, Repr

/-- `parseOptions`: Option pointers are indices into `heap`; `none` in
`opts` is a nil `*Option`.  First branch: no options, or first option nil
→ the default.  Second: more than one option → error.  Else mutate the
caller's record in place (magic number forced, codec type defaulted when
empty) and return the same pointer. -/
def parseOptions (heap : List GOption) (opts : List (Option Nat)) :
    List GOption × Except String ParsedOpt :=
  if opts.length = 0 ∨ opts.headD none = none then
    (heap, .ok .defaultOpt)
  else if opts.length ≠ 1 then
    (heap, .error "number of options is more than 1")
  else
    match opts.headD none with
    | none => (heap, .ok .defaultOpt)
    | some p =>
      let o := heap.getD p default
      let o1 := { o with MagicNumber := DefaultOption.MagicNumber }
      let o2 := if o1.CodecType = "" then { o1 with CodecType := DefaultOption.CodecType } else o1
      (heap.set p o2, .ok (.ptr p))

/-! ## Interleaving trace model

One atomic action per lock-protected unit of the Go code: a whole `Go`
submission (the `sending` mutex is held across all of `send`, and
`registerCall` / `removeCall` are single `mu` sections whose interleavings
with the receive loop cannot change which thread wins the table entry), a
single receive-loop iteration, the whole of `terminateCalls` (holds both
locks), and `Close`.  A well-formed trace runs `terminateCalls` at most
once and runs no further receive-loop iteration after it, which is forced
by the source: termination happens exactly once, after the loop's only
exit. -/

/-- An atomic action of one of the client's threads. -/
inductive Action where
  | asend (sm : String) (a r : Nat) (d : Option Chan) (w : Option GoError)
  | arecv (f : Frame)
  | aterm (e : GoError)
  | aclose (ccErr : Option GoError)
deriving DecidableEq, Repr

/-- Apply one action to the client state. -/
def step (s : ClientState) : Action → ClientState
  | .asend sm a r d w => (goCall s sm a r d w).st
  | .arecv f => (recvStep s f).1
  | .aterm e => terminateCalls s e
  | .aclose ccErr =>
    (closeClient s (match ccErr with | none => .ok () | some e => .error e)).1

/-- Run a list of actions from a given state. -/
def run (s : ClientState) (l : List Action) : ClientState := l.foldl step s

/-- Run a trace from the freshly constructed client. -/
def exec (l : List Action) : ClientState := run freshClient l

/-- After termination only submissions and closes can still happen (the
receive loop is gone and `terminateCalls` runs once). -/
def postTermOK : List Action → Bool
  | [] => true
  | .asend _ _ _ _ _ :: rest => postTermOK rest
  | .aclose _ :: rest => postTermOK rest
  | .arecv _ :: _ => false
  | .aterm _ :: _ => false

/-- Well-formed traces. -/
def wfTrace : List Action → Bool
  | [] => true
  | .aterm _ :: rest => postTermOK rest
  | .asend _ _ _ _ _ :: rest => wfTrace rest
  | .arecv _ :: rest => wfTrace rest
  | .aclose _ :: rest => wfTrace rest

/-- The pending table is well formed: the stored pointers are pairwise
distinct and point into the heap. -/
def pendingOK (s : ClientState) : Prop :=
  (s.pending.map Prod.snd).Nodup ∧ ∀ p ∈ s.pending, p.2 < s.calls.length

/-- Invariant before termination: not shut down, table well formed, every
pending call unsignaled, and no call signaled more than once. -/
def InvPre (s : ClientState) : Prop :=
  s.shutdown = false ∧ pendingOK s ∧
  (∀ p ∈ s.pending, doneCountOf s p.2 = 0) ∧
  (∀ cid, doneCountOf s cid ≤ 1)

/-- Invariant after termination: shut down and no call signaled more than
once (terminated calls stay in the table with one signal each). -/
def InvPost (s : ClientState) : Prop :=
  s.shutdown = true ∧ (∀ cid, doneCountOf s cid ≤ 1)

/-- A call resolved and signaled once with error `e`. -/
def bumpCall (c : CallRec) (e : GoError) : CallRec :=
  { c with error := some e, doneCount := c.doneCount + 1 }

/-! ## Concrete states and traces for the individual claims -/

/-- One call registered and written on a fresh client (used by C1). -/
def c1cex : ClientState := (goCall freshClient "Foo.Sum" 0 0 none none).st

/-- One call registered and written on a fresh client (used by C2). -/
def c2cex : ClientState := (goCall freshClient "Foo.Sum" 0 0 none none).st

/-- A well-formed trace: submit, receive the matching reply, then the
connection dies (used by C2's witness). -/
def c2trace : List Action :=
  [.asend "Foo.Sum" 0 0 none none,
   .arecv (.frame ⟨"Foo.Sum", 1, ""⟩ none),
   .aterm (.str "EOF")]

/-- Two calls registered and written on a fresh client (used by C3). -/
def c3cex : ClientState :=
  (goCall (goCall freshClient "Foo.Sum" 0 0 none none).st "Foo.Diff" 0 0 none none).st

/-- Wire input for C3: a good header for seq 1 whose body read fails, then
a header-read failure that the loop never reaches. -/
def c3frames : List Frame :=
  [.frame ⟨"Foo.Sum", 1, ""⟩ (some (.str "boom")), .hdrErr (.str "hdr gone")]

/-- The state after `receive` on `c3cex` and `c3frames`. -/
def c3res : ClientState := (receive c3cex c3frames).getD freshClient

/-- A closed (closing-flag set) client for C5's witness. -/
def c5cex : ClientState := { freshClient with closing := true }

/-- A client whose receive loop has died (`shutdown` set, `closing` not),
for C6's counterexample. -/
def c6cex : ClientState := { freshClient with shutdown := true }

/-- The client state after `n` registrations on a fresh client (the
registered pointer is irrelevant to the counter; 0 is used).  Used for
C4's sequence-number analysis. -/
def clientAfterRegs : Nat → ClientState
  | 0 => freshClient
  | n + 1 => (registerCall (clientAfterRegs n) 0).1

/-- The sequence number `registerCall` assigns at the (k+1)-th
registration (0-indexed k): the counter value before that registration. -/
def assignedSeqAt (k : Nat) : Nat := (clientAfterRegs k).seq

/-! ## Helper lemmas: heap cells -/

theorem list_getD_set_self {α : Type} (cs : List α) (i : Nat) (c d : α)
    (h : i < cs.length) : (cs.set i c).getD i d = c := by
  rw [List.getD_eq_getElem?_getD, List.getElem?_set_self h, Option.getD_some]

theorem list_getD_set_ne {α : Type} (cs : List α) (i j : Nat) (c d : α)
    (h : j ≠ i) : (cs.set i c).getD j d = cs.getD j d := by
  rw [List.getD_eq_getElem?_getD, List.getElem?_set_ne (Ne.symm h),
    ← List.getD_eq_getElem?_getD]

theorem list_getD_append_lt {α : Type} (cs : List α) (c d : α) (i : Nat)
    (h : i < cs.length) : (cs ++ [c]).getD i d = cs.getD i d := by
  rw [List.getD_eq_getElem?_getD, List.getElem?_append, if_pos h,
    ← List.getD_eq_getElem?_getD]

theorem list_getD_append_self {α : Type} (cs : List α) (c d : α) :
    (cs ++ [c]).getD cs.length d = c := by
  rw [List.getD_eq_getElem?_getD, List.getElem?_append, if_neg (by omega)]
  simp

theorem list_getD_append_gt {α : Type} (cs : List α) (c d : α) (i : Nat)
    (h : cs.length < i) : (cs ++ [c]).getD i d = d := by
  rw [List.getD_eq_getElem?_getD, List.getElem?_append, if_neg (by omega)]
  have : (([c] : List α)[i - cs.length]?) = none := by
    rw [List.getElem?_eq_none]
    simp only [List.length_singleton]
    omega
  rw [this, Option.getD_none]

theorem updCall_length (cs : List CallRec) (cid : Nat) (f : CallRec → CallRec) :
    (updCall cs cid f).length = cs.length := by
  simp [updCall]

theorem getD_updCall_self (cs : List CallRec) (cid : Nat) (f : CallRec → CallRec)
    (h : cid < cs.length) :
    (updCall cs cid f).getD cid default = f (cs.getD cid default) :=
  list_getD_set_self _ _ _ _ h

theorem getD_updCall_ne (cs : List CallRec) (cid cid2 : Nat) (f : CallRec → CallRec)
    (h : cid2 ≠ cid) :
    (updCall cs cid f).getD cid2 default = cs.getD cid2 default :=
  list_getD_set_ne _ _ _ _ _ h

/-! ## Helper lemmas: the modelled Go map -/

theorem mapLookup_insert_self (m : List (Nat × Nat)) (k v : Nat) :
    mapLookup (mapInsert m k v) k = some v := by
  simp [mapLookup, mapInsert, List.find?]

theorem mapErase_insert (m : List (Nat × Nat)) (k v : Nat) :
    mapErase (mapInsert m k v) k = mapErase m k := by
  simp only [mapErase, mapInsert, List.filter]
  rw [bne_self_eq_false]
  simp [List.filter_filter]

theorem mem_of_mapLookup {m : List (Nat × Nat)} {k v : Nat}
    (h : mapLookup m k = some v) : (k, v) ∈ m := by
  unfold mapLookup at h
  cases hf : m.find? (fun p => p.1 == k) with
  | none => rw [hf] at h; simp at h
  | some a =>
    rw [hf] at h
    simp only [Option.map_some', Option.some.injEq] at h
    have h1 : a.1 = k := by simpa using List.find?_some hf
    have h2 := List.mem_of_find?_eq_some hf
    have : a = (k, v) := by
      cases a
      simp_all
    rwa [this] at h2

theorem mapErase_sublist (m : List (Nat × Nat)) (k : Nat) :
    (mapErase m k).Sublist m :=
  List.filter_sublist m

theorem mem_of_mem_mapErase {m : List (Nat × Nat)} {k : Nat} {p : Nat × Nat}
    (h : p ∈ mapErase m k) : p ∈ m :=
  (mapErase_sublist m k).mem h

theorem key_ne_of_mem_mapErase {m : List (Nat × Nat)} {k : Nat} {p : Nat × Nat}
    (h : p ∈ mapErase m k) : p.1 ≠ k := by
  have := List.of_mem_filter h
  simpa using this

theorem map_snd_mapErase_nodup {m : List (Nat × Nat)} (k : Nat)
    (h : (m.map Prod.snd).Nodup) : ((mapErase m k).map Prod.snd).Nodup :=
  (((mapErase_sublist m k).map Prod.snd).nodup) h

theorem map_snd_mapInsert (m : List (Nat × Nat)) (k v : Nat) :
    (mapInsert m k v).map Prod.snd = v :: (mapErase m k).map Prod.snd := rfl

theorem mem_map_snd_of_mem {m : List (Nat × Nat)} {p : Nat × Nat} (h : p ∈ m) :
    p.2 ∈ m.map Prod.snd :=
  List.mem_map_of_mem Prod.snd h

theorem not_mem_map_snd_mapErase_of_lookup {m : List (Nat × Nat)} {k v : Nat}
    (hnd : (m.map Prod.snd).Nodup) (h : mapLookup m k = some v) :
    v ∉ (mapErase m k).map Prod.snd := by
  intro hv
  rcases List.mem_map.mp hv with ⟨p, hp, hpv⟩
  have hpm : p ∈ m := mem_of_mem_mapErase hp
  have hkm : (k, v) ∈ m := mem_of_mapLookup h
  have : p = (k, v) := List.inj_on_of_nodup_map hnd hpm hkm (by simpa using hpv)
  exact key_ne_of_mem_mapErase hp (by rw [this])

/-! ## Helper lemmas: state operations -/

theorem resolveWith_pending (s : ClientState) (cid : Nat) (e : GoError) :
    (resolveWith s cid e).pending = s.pending := rfl

theorem resolveWith_closing (s : ClientState) (cid : Nat) (e : GoError) :
    (resolveWith s cid e).closing = s.closing := rfl

theorem resolveWith_shutdown (s : ClientState) (cid : Nat) (e : GoError) :
    (resolveWith s cid e).shutdown = s.shutdown := rfl

theorem resolveWith_calls_length (s : ClientState) (cid : Nat) (e : GoError) :
    (resolveWith s cid e).calls.length = s.calls.length := by
  simp [resolveWith, doneCall, setCallError, updCall]

theorem getCall_resolveWith_self (s : ClientState) (cid : Nat) (e : GoError)
    (h : cid < s.calls.length) :
    getCall (resolveWith s cid e) cid = bumpCall (getCall s cid) e := by
  simp only [resolveWith, doneCall, setCallError, getCall, bumpCall]
  rw [getD_updCall_self _ _ _ (by simpa [updCall] using h), getD_updCall_self _ _ _ h]

theorem getCall_resolveWith_ne (s : ClientState) (cid cid2 : Nat) (e : GoError)
    (h : cid2 ≠ cid) :
    getCall (resolveWith s cid e) cid2 = getCall s cid2 := by
  simp only [resolveWith, doneCall, setCallError, getCall]
  rw [getD_updCall_ne _ _ _ _ h, getD_updCall_ne _ _ _ _ h]

theorem doneCountOf_resolveWith_self (s : ClientState) (cid : Nat) (e : GoError)
    (h : cid < s.calls.length) :
    doneCountOf (resolveWith s cid e) cid = doneCountOf s cid + 1 := by
  simp [doneCountOf, getCall_resolveWith_self s cid e h, bumpCall]

theorem doneCountOf_resolveWith_ne (s : ClientState) (cid cid2 : Nat) (e : GoError)
    (h : cid2 ≠ cid) :
    doneCountOf (resolveWith s cid e) cid2 = doneCountOf s cid2 := by
  simp [doneCountOf, getCall_resolveWith_ne s cid cid2 e h]

theorem getCall_doneCall_self (s : ClientState) (cid : Nat)
    (h : cid < s.calls.length) :
    getCall (doneCall s cid) cid = { getCall s cid with doneCount := (getCall s cid).doneCount + 1 } := by
  simp only [doneCall, getCall]
  rw [getD_updCall_self _ _ _ h]

theorem getCall_doneCall_ne (s : ClientState) (cid cid2 : Nat) (h : cid2 ≠ cid) :
    getCall (doneCall s cid) cid2 = getCall s cid2 := by
  simp only [doneCall, getCall]
  rw [getD_updCall_ne _ _ _ _ h]

theorem doneCall_pending (s : ClientState) (cid : Nat) :
    (doneCall s cid).pending = s.pending := rfl

theorem doneCall_shutdown (s : ClientState) (cid : Nat) :
    (doneCall s cid).shutdown = s.shutdown := rfl

theorem doneCall_calls_length (s : ClientState) (cid : Nat) :
    (doneCall s cid).calls.length = s.calls.length := by
  simp [doneCall, updCall]

/-! ## The termination fold -/

theorem termFold_spec (e : GoError) (L : List (Nat × Nat)) :
    ∀ (acc : ClientState), (L.map Prod.snd).Nodup →
      (∀ p ∈ L, p.2 < acc.calls.length) →
      (L.foldl (fun a p => resolveWith a p.2 e) acc).pending = acc.pending ∧
      (L.foldl (fun a p => resolveWith a p.2 e) acc).shutdown = acc.shutdown ∧
      (L.foldl (fun a p => resolveWith a p.2 e) acc).closing = acc.closing ∧
      (L.foldl (fun a p => resolveWith a p.2 e) acc).calls.length = acc.calls.length ∧
      (∀ q, q ∉ L.map Prod.snd →
        getCall (L.foldl (fun a p => resolveWith a p.2 e) acc) q = getCall acc q) ∧
      (∀ p ∈ L,
        getCall (L.foldl (fun a p => resolveWith a p.2 e) acc) p.2 =
          bumpCall (getCall acc p.2) e) := by
  induction L with
  | nil => intro acc _ _; simp
  | cons hd tl ih =>
    intro acc hnd hlt
    have hndtl : (tl.map Prod.snd).Nodup := by
      simpa using hnd.of_cons
    have hhd : hd.2 ∉ tl.map Prod.snd := by
      have := hnd
      simp only [List.map_cons, List.nodup_cons] at this
      exact this.1
    have hlen : (resolveWith acc hd.2 e).calls.length = acc.calls.length :=
      resolveWith_calls_length acc hd.2 e
    have hlttl : ∀ p ∈ tl, p.2 < (resolveWith acc hd.2 e).calls.length := by
      intro p hp; rw [hlen]; exact hlt p (List.mem_cons_of_mem hd hp)
    obtain ⟨ihp, ihs, ihc, ihl, ihq, ihm⟩ := ih (resolveWith acc hd.2 e) hndtl hlttl
    refine ⟨?_, ?_, ?_, ?_, ?_, ?_⟩
    · simpa [resolveWith_pending] using ihp
    · simpa [resolveWith_shutdown] using ihs
    · simpa [resolveWith_closing] using ihc
    · simpa [hlen] using ihl
    · intro q hq
      simp only [List.map_cons, List.mem_cons, not_or] at hq
      rw [List.foldl_cons, ihq q hq.2, getCall_resolveWith_ne acc hd.2 q e hq.1]
    · intro p hp
      rcases List.mem_cons.mp hp with h | h
      · subst h
        rw [List.foldl_cons, ihq p.2 hhd,
          getCall_resolveWith_self acc p.2 e (hlt p (List.mem_cons_self p tl))]
      · rw [List.foldl_cons, ihm p h,
          getCall_resolveWith_ne acc hd.2 p.2 e]
        intro hcontra
        exact hhd (hcontra ▸ mem_map_snd_of_mem h)

theorem terminateCalls_spec (s : ClientState) (e : GoError)
    (hnd : (s.pending.map Prod.snd).Nodup)
    (hlt : ∀ p ∈ s.pending, p.2 < s.calls.length) :
    (terminateCalls s e).pending = s.pending ∧
    (terminateCalls s e).shutdown = true ∧
    (terminateCalls s e).closing = s.closing ∧
    (terminateCalls s e).calls.length = s.calls.length ∧
    (∀ q, q ∉ s.pending.map Prod.snd → getCall (terminateCalls s e) q = getCall s q) ∧
    (∀ p ∈ s.pending, getCall (terminateCalls s e) p.2 = bumpCall (getCall s p.2) e) := by
  have h0 : ∀ p ∈ s.pending, p.2 < ({ s with shutdown := true } : ClientState).calls.length := hlt
  obtain ⟨hp, hs, hc, hl, hq, hm⟩ := termFold_spec e s.pending { s with shutdown := true } hnd h0
  exact ⟨hp, hs, hc, hl, fun q h => hq q h, fun p h => hm p h⟩

/-! ## Claim C1 -/

/-- C1 (amended): after `terminateCalls(cause)` runs with K calls in the
pending table, every one of those K calls has its error set to the cause
and its done channel signaled once more, and `shutdown` is set — but the
pending table is NOT emptied: the source never deletes the entries, so the
table afterwards still holds exactly what it held before. -/
theorem c1_terminate_resolves_all (s : ClientState) (e : GoError)
    (hnd : (s.pending.map Prod.snd).Nodup)
    (hlt : ∀ p ∈ s.pending, p.2 < s.calls.length) :
    (terminateCalls s e).shutdown = true ∧
    (terminateCalls s e).pending = s.pending ∧
    ∀ p ∈ s.pending,
      (getCall (terminateCalls s e) p.2).error = some e ∧
      doneCountOf (terminateCalls s e) p.2 = doneCountOf s p.2 + 1 := by
  obtain ⟨hp, hs, _, _, _, hm⟩ := terminateCalls_spec s e hnd hlt
  refine ⟨hs, hp, fun p hmem => ?_⟩
  have := hm p hmem
  constructor
  · rw [this]; rfl
  · unfold doneCountOf; rw [this]; rfl

/-- C1 (counterexample): a client with one pending registered call; after
`terminateCalls` the call is resolved with the cause, yet the pending
table still contains its entry — it is not empty as the claim states. -/
theorem c1_counterexample :
    c1cex.pending = [(1, 0)] ∧
    (terminateCalls c1cex (GoError.str "EOF")).pending = [(1, 0)] ∧
    (getCall (terminateCalls c1cex (GoError.str "EOF")) 0).error =
      some (GoError.str "EOF") ∧
    doneCountOf (terminateCalls c1cex (GoError.str "EOF")) 0 = 1 := by
  decide

/-- C1 (witness): the amended theorem applied to the concrete one-call
client. -/
theorem c1_witness :
    (terminateCalls c1cex (GoError.str "EOF")).shutdown = true ∧
    (terminateCalls c1cex (GoError.str "EOF")).pending = c1cex.pending ∧
    ∀ p ∈ c1cex.pending,
      (getCall (terminateCalls c1cex (GoError.str "EOF")) p.2).error =
        some (GoError.str "EOF") ∧
      doneCountOf (terminateCalls c1cex (GoError.str "EOF")) p.2 =
        doneCountOf c1cex p.2 + 1 :=
  c1_terminate_resolves_all c1cex (GoError.str "EOF") (by decide) (by decide)

/-! ## Claim C3 -/

/-- C3 (amended): the receive loop exits when a header read fails OR when
a body read fails.  On a reply-body decode failure for a matched Call the
loop does set that Call's error to the wrapped decode error and resolve
it, but the loop variable `err` is the body-read error, so the loop then
terminates the connection instead of continuing to the next header; only
a successful body read lets the loop continue. -/
theorem c3_receive_exits_on_body_error (s : ClientState) (h : Header)
    (e : GoError) (rest : List Frame) (cid : Nat)
    (hlk : mapLookup s.pending h.seq = some cid) (hne : h.error = "") :
    receiveRun s (Frame.frame h (some e) :: rest) =
      some (resolveWith { s with pending := mapErase s.pending h.seq } cid
              (GoError.str ("reading body" ++ e.msg)), e) ∧
    receiveRun s (Frame.hdrErr e :: rest) = some (s, e) ∧
    (recvStep s (Frame.frame h none)).2 = none ∧
    receiveRun s (Frame.frame h none :: rest) =
      receiveRun (recvStep s (Frame.frame h none)).1 rest := by
  refine ⟨?_, rfl, ?_, ?_⟩
  · simp [receiveRun, recvStep, removeCall, hlk, hne, resolveWith]
  · simp [recvStep, removeCall, hlk, hne]
  · simp only [receiveRun]
    simp [recvStep, removeCall, hlk, hne]

/-- C3 (counterexample): two pending calls (seqs 1 and 2); the wire yields
a good header for seq 1 whose body read fails, then a would-be header
failure.  The loop resolves call 0 with the wrapped decode error but then
exits and terminates: call 1 is resolved with the BODY-read cause "boom"
(not with the never-reached header error), and the client shuts down —
refuting that a header-read failure is the sole exit of the loop. -/
theorem c3_counterexample :
    (receive c3cex c3frames).isSome = true ∧
    (getCall c3res 0).error = some (GoError.str "reading bodyboom") ∧
    doneCountOf c3res 0 = 1 ∧
    (getCall c3res 1).error = some (GoError.str "boom") ∧
    doneCountOf c3res 1 = 1 ∧
    c3res.shutdown = true ∧
    (2, 1) ∈ c3res.pending := by
  decide

/-- C3 (witness): the amended theorem applied to the concrete two-call
client and a failing body read. -/
theorem c3_witness :
    receiveRun c3cex (Frame.frame ⟨"Foo.Sum", 1, ""⟩ (some (GoError.str "boom")) :: [Frame.hdrErr (GoError.str "hdr gone")]) =
      some (resolveWith { c3cex with pending := mapErase c3cex.pending 1 } 0
              (GoError.str ("reading body" ++ (GoError.str "boom").msg)), GoError.str "boom") ∧
    receiveRun c3cex (Frame.hdrErr (GoError.str "boom") :: [Frame.hdrErr (GoError.str "hdr gone")]) =
      some (c3cex, GoError.str "boom") ∧
    (recvStep c3cex (Frame.frame ⟨"Foo.Sum", 1, ""⟩ none)).2 = none ∧
    receiveRun c3cex (Frame.frame ⟨"Foo.Sum", 1, ""⟩ none :: [Frame.hdrErr (GoError.str "hdr gone")]) =
      receiveRun (recvStep c3cex (Frame.frame ⟨"Foo.Sum", 1, ""⟩ none)).1
        [Frame.hdrErr (GoError.str "hdr gone")] :=
  c3_receive_exits_on_body_error c3cex ⟨"Foo.Sum", 1, ""⟩ (GoError.str "boom")
    [Frame.hdrErr (GoError.str "hdr gone")] 0 (by decide) (by decide)

/-! ## Claim C4 -/

theorem clientAfterRegs_flags (n : Nat) :
    (clientAfterRegs n).closing = false ∧ (clientAfterRegs n).shutdown = false := by
  induction n with
  | zero => exact ⟨rfl, rfl⟩
  | succ n ih => simp [clientAfterRegs, registerCall, ih.1, ih.2]

theorem clientAfterRegs_seq (n : Nat) :
    (clientAfterRegs n).seq = (1 + n) % U64 := by
  induction n with
  | zero =>
    simp [clientAfterRegs, freshClient, U64]
  | succ n ih =>
    obtain ⟨h1, h2⟩ := clientAfterRegs_flags n
    simp only [clientAfterRegs, registerCall, h1, h2, Bool.or_self, Bool.false_eq_true,
      if_false, ih]
    simp only [U64]
    omega

theorem assignedSeqAt_eq (k : Nat) : assignedSeqAt k = (1 + k) % U64 :=
  clientAfterRegs_seq k

theorem registerCall_afterRegs_ok (n : Nat) :
    (registerCall (clientAfterRegs n) 0).2 = Except.ok (assignedSeqAt n) := by
  obtain ⟨h1, h2⟩ := clientAfterRegs_flags n
  simp [registerCall, h1, h2, assignedSeqAt]

/-- C4 (amended): across the first 2^64 − 1 successful registrations on
one Client the assigned sequence numbers are pairwise distinct and
strictly increasing, starting at 1 for the first registered Call.  The
counter is a wrapping `uint64`, so the unrestricted claim fails at the
2^64-th registration (see the counterexample). -/
theorem c4_seq_strictly_increasing (i j : Nat) (hij : i < j) (hj : j < U64 - 1) :
    assignedSeqAt 0 = 1 ∧
    (registerCall (clientAfterRegs i) 0).2 = Except.ok (assignedSeqAt i) ∧
    (registerCall (clientAfterRegs j) 0).2 = Except.ok (assignedSeqAt j) ∧
    assignedSeqAt i < assignedSeqAt j := by
  have h0 : assignedSeqAt 0 = 1 := rfl
  have hi : assignedSeqAt i = 1 + i := by
    rw [assignedSeqAt_eq]
    simp only [U64] at hj ⊢
    omega
  have hjv : assignedSeqAt j = 1 + j := by
    rw [assignedSeqAt_eq]
    simp only [U64] at hj ⊢
    omega
  exact ⟨h0, registerCall_afterRegs_ok i, registerCall_afterRegs_ok j, by omega⟩

/-- C4 (counterexample): at the 2^64-th successful registration the
`uint64` counter wraps: the (2^64−1)-th registration (0-indexed 2^64−2) is
assigned 2^64−1, and the next successful registration is assigned 0 —
smaller than its predecessor, so the assigned numbers are not strictly
increasing across every sequence of successful registrations. -/
theorem c4_counterexample :
    (registerCall (clientAfterRegs (U64 - 2)) 0).2 = Except.ok (U64 - 1) ∧
    (registerCall (clientAfterRegs (U64 - 1)) 0).2 = Except.ok 0 ∧
    assignedSeqAt (U64 - 2) = U64 - 1 ∧
    assignedSeqAt (U64 - 1) = 0 ∧
    assignedSeqAt (U64 - 1) < assignedSeqAt (U64 - 2) := by
  have ha : assignedSeqAt (U64 - 2) = U64 - 1 := by
    rw [assignedSeqAt_eq]
    simp [U64]
  have hb : assignedSeqAt (U64 - 1) = 0 := by
    rw [assignedSeqAt_eq]
    simp [U64]
  refine ⟨?_, ?_, ha, hb, ?_⟩
  · rw [registerCall_afterRegs_ok, ha]
  · rw [registerCall_afterRegs_ok, hb]
  · rw [ha, hb]
    simp only [U64]
    omega

/-- C4 (witness): the amended theorem at the first two registrations. -/
theorem c4_witness :
    assignedSeqAt 0 = 1 ∧
    (registerCall (clientAfterRegs 0) 0).2 = Except.ok (assignedSeqAt 0) ∧
    (registerCall (clientAfterRegs 1) 0).2 = Except.ok (assignedSeqAt 1) ∧
    assignedSeqAt 0 < assignedSeqAt 1 :=
  c4_seq_strictly_increasing 0 1 (by decide) (by norm_num [U64])

/-! ## Claim C5 -/

theorem goBody_flag_spec (s : ClientState) (sm : String) (a r : Nat) (ch : Chan)
    (w : Option GoError) (hflag : s.closing = true ∨ s.shutdown = true) :
    (goBody s sm a r ch w).isOk = true ∧
    (goBody s sm a r ch w).callId = s.calls.length ∧
    (goBody s sm a r ch w).st.pending = s.pending ∧
    (goBody s sm a r ch w).st.events = s.events ++ [Event.signaled s.calls.length] ∧
    (getCall (goBody s sm a r ch w).st s.calls.length).error = some GoError.shutdown ∧
    doneCountOf (goBody s sm a r ch w).st s.calls.length = 1 ∧
    (getCall (goBody s sm a r ch w).st s.calls.length).ch = ch := by
  have hb : goBody s sm a r ch w =
      .ok (resolveWith { s with calls := s.calls ++ [⟨0, sm, a, r, none, 0, ch⟩] }
            s.calls.length GoError.shutdown) s.calls.length := by
    unfold goBody send registerCall
    rcases hflag with h | h <;> simp [h]
  rw [hb]
  simp only [GoRes.isOk, GoRes.callId, GoRes.st]
  have hlen : s.calls.length <
      ({ s with calls := s.calls ++ [(⟨0, sm, a, r, none, 0, ch⟩ : CallRec)] } : ClientState).calls.length := by
    simp
  have hcell : getCall { s with calls := s.calls ++ [(⟨0, sm, a, r, none, 0, ch⟩ : CallRec)] }
      s.calls.length = (⟨0, sm, a, r, none, 0, ch⟩ : CallRec) := by
    simp only [getCall]
    exact list_getD_append_self s.calls _ default
  refine ⟨by trivial, by trivial, by trivial, by trivial, ?_, ?_, ?_⟩
  · rw [getCall_resolveWith_self _ _ _ hlen, hcell]; rfl
  · unfold doneCountOf
    rw [getCall_resolveWith_self _ _ _ hlen, hcell]; rfl
  · rw [getCall_resolveWith_self _ _ _ hlen, hcell]; rfl

/-- C5 (confirmed): once `closing` or `shutdown` is set, every submission
through `Go` (hence also through the synchronous `Call`, which goes
through `Go`) resolves its fresh Call immediately with `ErrShutdown`: the
pending table is untouched, the only new event is the completion signal
(in particular no write reaches the codec), and the Call carries the
shutdown error, signaled exactly once. -/
theorem c5_post_close_submission (s : ClientState) (sm : String) (a r : Nat)
    (d : Option Chan) (w : Option GoError)
    (hflag : s.closing = true ∨ s.shutdown = true)
    (hch : ∀ ch, d = some ch → ch.cap ≠ 0) :
    (goCall s sm a r d w).isOk = true ∧
    (goCall s sm a r d w).callId = s.calls.length ∧
    (goCall s sm a r d w).st.pending = s.pending ∧
    (goCall s sm a r d w).st.events = s.events ++ [Event.signaled s.calls.length] ∧
    (getCall (goCall s sm a r d w).st s.calls.length).error = some GoError.shutdown ∧
    doneCountOf (goCall s sm a r d w).st s.calls.length = 1 := by
  cases d with
  | none =>
    have h := goBody_flag_spec { s with nextChan := s.nextChan + 1 } sm a r
      ⟨s.nextChan, 10⟩ w hflag
    exact ⟨h.1, h.2.1, h.2.2.1, h.2.2.2.1, h.2.2.2.2.1, h.2.2.2.2.2.1⟩
  | some ch =>
    have hcap : ch.cap ≠ 0 := hch ch rfl
    have h := goBody_flag_spec s sm a r ch w hflag
    simp only [goCall, if_neg hcap]
    exact ⟨h.1, h.2.1, h.2.2.1, h.2.2.2.1, h.2.2.2.2.1, h.2.2.2.2.2.1⟩

/-- C5 (witness): submission on a client whose `Close` has succeeded. -/
theorem c5_witness :
    (goCall c5cex "Foo.Sum" 0 0 none none).isOk = true ∧
    (goCall c5cex "Foo.Sum" 0 0 none none).callId = c5cex.calls.length ∧
    (goCall c5cex "Foo.Sum" 0 0 none none).st.pending = c5cex.pending ∧
    (goCall c5cex "Foo.Sum" 0 0 none none).st.events =
      c5cex.events ++ [Event.signaled c5cex.calls.length] ∧
    (getCall (goCall c5cex "Foo.Sum" 0 0 none none).st c5cex.calls.length).error =
      some GoError.shutdown ∧
    doneCountOf (goCall c5cex "Foo.Sum" 0 0 none none).st c5cex.calls.length = 1 :=
  c5_post_close_submission c5cex "Foo.Sum" 0 0 none none (Or.inl rfl)
    (by intro ch h; cases h)

/-! ## Claim C6 -/

/-- C6 (amended): submission after either flag is set fails with
`ErrShutdown` (here: `registerCall` after a successful `Close`), and
`Close` itself is guarded by the `closing` flag alone: a first `Close` on
a non-closing client marks `closing`, closes the codec and returns the
codec's result; a second `Close` then fails with `ErrShutdown`, leaves the
state untouched, and does not close the codec again.  (`Close` after only
`shutdown` is set still closes the codec — see the counterexample.) -/
theorem c6_close_idempotent_guard (s : ClientState) (cc1 cc2 : Except GoError Unit)
    (cid : Nat) (h : s.closing = false) :
    (closeClient s cc1).2 = cc1 ∧
    (closeClient s cc1).1.closing = true ∧
    (closeClient s cc1).1.events = s.events ++ [Event.codecClosed] ∧
    closeClient (closeClient s cc1).1 cc2 =
      ((closeClient s cc1).1, Except.error GoError.shutdown) ∧
    (registerCall (closeClient s cc1).1 cid).2 = Except.error GoError.shutdown := by
  simp [closeClient, registerCall, h]

/-- C6 (counterexample): a client whose receive loop has died (`shutdown`
set by `terminateCalls`) but on which `Close` was never called.  `Close`
checks only `closing`, so it does NOT return `ErrShutdown`: it succeeds
and closes the codec — refuting that every operation after `closing` or
`shutdown` is set returns `ErrShutdown`. -/
theorem c6_counterexample :
    c6cex.shutdown = true ∧
    (closeClient c6cex (Except.ok ())).2 = Except.ok () ∧
    (closeClient c6cex (Except.ok ())).2 ≠ Except.error GoError.shutdown ∧
    (closeClient c6cex (Except.ok ())).1.events = [Event.codecClosed] := by
  refine ⟨rfl, rfl, ?_, rfl⟩
  intro hcontra
  exact Except.noConfusion hcontra

/-- C6 (witness): the amended theorem on a fresh client. -/
theorem c6_witness :
    (closeClient freshClient (Except.ok ())).2 = Except.ok () ∧
    (closeClient freshClient (Except.ok ())).1.closing = true ∧
    (closeClient freshClient (Except.ok ())).1.events =
      freshClient.events ++ [Event.codecClosed] ∧
    closeClient (closeClient freshClient (Except.ok ())).1 (Except.ok ()) =
      ((closeClient freshClient (Except.ok ())).1, Except.error GoError.shutdown) ∧
    (registerCall (closeClient freshClient (Except.ok ())).1 0).2 =
      Except.error GoError.shutdown :=
  c6_close_idempotent_guard freshClient (Except.ok ()) (Except.ok ()) 0 rfl

/-! ## Claim C7 -/

theorem registerCall_flagged (s : ClientState) (cid : Nat)
    (h : s.closing = true ∨ s.shutdown = true) :
    registerCall s cid = (s, Except.error GoError.shutdown) := by
  rcases h with h | h <;> simp [registerCall, h]

theorem registerCall_live (s : ClientState) (cid : Nat)
    (hc : s.closing = false) (hs : s.shutdown = false) :
    registerCall s cid =
      ({ s with
          calls := updCall s.calls cid (fun c => { c with seq := s.seq }),
          pending := mapInsert s.pending s.seq cid,
          seq := (s.seq + 1) % U64 },
       Except.ok s.seq) := by
  simp [registerCall, hc, hs]

theorem send_flagged (s : ClientState) (cid : Nat) (w : Option GoError)
    (h : s.closing = true ∨ s.shutdown = true) :
    send s cid w = resolveWith s cid GoError.shutdown := by
  unfold send
  rw [registerCall_flagged s cid h]

theorem send_live_ok (s : ClientState) (cid : Nat)
    (hc : s.closing = false) (hs : s.shutdown = false) :
    send s cid none =
      { s with
          calls := updCall s.calls cid (fun c => { c with seq := s.seq }),
          pending := mapInsert s.pending s.seq cid,
          seq := (s.seq + 1) % U64,
          events := s.events ++
            [Event.wrote s.seq
              (getCall { s with calls := updCall s.calls cid (fun c => { c with seq := s.seq }) }
                cid).serviceMethod] } := by
  unfold send
  rw [registerCall_live s cid hc hs]
  rfl

theorem send_live_fail (s : ClientState) (cid : Nat) (e : GoError)
    (hc : s.closing = false) (hs : s.shutdown = false) :
    send s cid (some e) =
      resolveWith
        { s with
            calls := updCall s.calls cid (fun c => { c with seq := s.seq }),
            pending := mapErase (mapInsert s.pending s.seq cid) s.seq,
            seq := (s.seq + 1) % U64,
            events := s.events ++
              [Event.wrote s.seq
                (getCall { s with calls := updCall s.calls cid (fun c => { c with seq := s.seq }) }
                  cid).serviceMethod] }
        cid e := by
  unfold send
  rw [registerCall_live s cid hc hs]
  dsimp only
  unfold removeCall
  rw [mapLookup_insert_self]
  rfl

theorem send_preserves_ch (s : ClientState) (cid : Nat) (w : Option GoError)
    (h : cid < s.calls.length) :
    (getCall (send s cid w) cid).ch = (getCall s cid).ch := by
  cases hc : s.closing with
  | true =>
    rw [send_flagged s cid w (Or.inl hc), getCall_resolveWith_self _ _ _ h]
    rfl
  | false =>
    cases hsd : s.shutdown with
    | true =>
      rw [send_flagged s cid w (Or.inr hsd), getCall_resolveWith_self _ _ _ h]
      rfl
    | false =>
      cases w with
      | none =>
        rw [send_live_ok s cid hc hsd]
        simp only [getCall]
        unfold updCall
        rw [list_getD_set_self _ _ _ _ h]
      | some e =>
        rw [send_live_fail s cid e hc hsd]
        have hlt : cid <
            ({ s with
                calls := updCall s.calls cid (fun c => { c with seq := s.seq }),
                pending := mapErase (mapInsert s.pending s.seq cid) s.seq,
                seq := (s.seq + 1) % U64,
                events := s.events ++
                  [Event.wrote s.seq
                    (getCall { s with calls := updCall s.calls cid (fun c => { c with seq := s.seq }) }
                      cid).serviceMethod] } : ClientState).calls.length := by
          simpa [updCall] using h
        rw [getCall_resolveWith_self _ _ _ hlt]
        simp only [bumpCall, getCall]
        unfold updCall
        rw [list_getD_set_self _ _ _ _ h]

theorem send_ok_doneCount (s : ClientState) (cid : Nat)
    (hc : s.closing = false) (hs : s.shutdown = false) :
    doneCountOf (send s cid none) cid = doneCountOf s cid := by
  rw [send_live_ok s cid hc hs]
  unfold doneCountOf getCall updCall
  by_cases hlen : cid < s.calls.length
  · rw [list_getD_set_self _ _ _ _ hlen]
  · rw [List.set_eq_of_length_le (by omega)]

/-- C7 (confirmed): `Go` with a nil done channel allocates a fresh channel
of capacity 10 for the Call; `Go` with a zero-capacity caller channel
panics with the state completely untouched (before any registration or
write); `Go` with a usable caller channel uses exactly that channel, and
returns the Call handle without waiting: after a successful write on a
live client the returned Call is still unsignaled. -/
theorem c7_go_done_channel (s : ClientState) (sm : String) (a r : Nat)
    (w : Option GoError) (ch : Chan) :
    ((goCall s sm a r none w).isOk = true ∧
     (getCall (goCall s sm a r none w).st (goCall s sm a r none w).callId).ch =
       ⟨s.nextChan, 10⟩) ∧
    (ch.cap = 0 → goCall s sm a r (some ch) w = GoRes.panic s) ∧
    (ch.cap ≠ 0 →
      (goCall s sm a r (some ch) w).isOk = true ∧
      (getCall (goCall s sm a r (some ch) w).st (goCall s sm a r (some ch) w).callId).ch = ch ∧
      (w = none → s.closing = false → s.shutdown = false →
        doneCountOf (goCall s sm a r (some ch) w).st
          (goCall s sm a r (some ch) w).callId = 0)) := by
  have hbody : ∀ (s0 : ClientState) (ch0 : Chan),
      (goBody s0 sm a r ch0 w).isOk = true ∧
      (getCall (goBody s0 sm a r ch0 w).st (goBody s0 sm a r ch0 w).callId).ch = ch0 ∧
      (w = none → s0.closing = false → s0.shutdown = false →
        doneCountOf (goBody s0 sm a r ch0 w).st (goBody s0 sm a r ch0 w).callId = 0) := by
    intro s0 ch0
    set s1 : ClientState := { s0 with calls := s0.calls ++ [⟨0, sm, a, r, none, 0, ch0⟩] } with hs1
    have hlt : s0.calls.length < s1.calls.length := by simp [hs1]
    have hcell : getCall s1 s0.calls.length = (⟨0, sm, a, r, none, 0, ch0⟩ : CallRec) := by
      simp only [getCall, hs1]
      exact list_getD_append_self s0.calls _ default
    refine ⟨rfl, ?_, ?_⟩
    · show (getCall (send s1 s0.calls.length w) s0.calls.length).ch = ch0
      rw [send_preserves_ch s1 s0.calls.length w hlt, hcell]
    · intro hw hc hsd
      subst hw
      show doneCountOf (send s1 s0.calls.length none) s0.calls.length = 0
      rw [send_ok_doneCount s1 s0.calls.length (by simp [hs1, hc]) (by simp [hs1, hsd])]
      unfold doneCountOf
      rw [hcell]
  refine ⟨?_, ?_, ?_⟩
  · have h := hbody { s with nextChan := s.nextChan + 1 } ⟨s.nextChan, 10⟩
    exact ⟨h.1, h.2.1⟩
  · intro hz
    simp [goCall, hz]
  · intro hnz
    have h := hbody s ch
    simp only [goCall, if_neg hnz]
    exact ⟨h.1, h.2.1, h.2.2⟩

/-- C7 (witness): the three branches at concrete inputs on a fresh client
with a capacity-3 caller channel. -/
theorem c7_witness :
    ((goCall freshClient "Foo.Sum" 0 0 none none).isOk = true ∧
     (getCall (goCall freshClient "Foo.Sum" 0 0 none none).st
        (goCall freshClient "Foo.Sum" 0 0 none none).callId).ch =
       ⟨freshClient.nextChan, 10⟩) ∧
    ((⟨5, 0⟩ : Chan).cap = 0 →
      goCall freshClient "Foo.Sum" 0 0 (some ⟨5, 0⟩) none = GoRes.panic freshClient) ∧
    ((⟨5, 0⟩ : Chan).cap ≠ 0 →
      (goCall freshClient "Foo.Sum" 0 0 (some ⟨5, 0⟩) none).isOk = true ∧
      (getCall (goCall freshClient "Foo.Sum" 0 0 (some ⟨5, 0⟩) none).st
        (goCall freshClient "Foo.Sum" 0 0 (some ⟨5, 0⟩) none).callId).ch = ⟨5, 0⟩ ∧
      (none = (none : Option GoError) → freshClient.closing = false →
        freshClient.shutdown = false →
        doneCountOf (goCall freshClient "Foo.Sum" 0 0 (some ⟨5, 0⟩) none).st
          (goCall freshClient "Foo.Sum" 0 0 (some ⟨5, 0⟩) none).callId = 0)) :=
  c7_go_done_channel freshClient "Foo.Sum" 0 0 none ⟨5, 0⟩

/-! ## Claim C8 -/

/-- C8 (confirmed): the synchronous `Call` is observationally equal to the
spec's composition — `Go` with a freshly allocated private capacity-1
channel, blocking until that channel yields the Call, and returning the
Call's error — for every service method, argument, reply target, write
outcome and eventual resolution. -/
theorem c8_call_equals_go_compose (s : ClientState) (sm : String) (a r : Nat)
    (w eventual : Option GoError) :
    callSync s sm a r w eventual = callSpec s sm a r w eventual := rfl

/-! ## Claims C9 and C10 -/

/-- C9 (amended): `parseOptions` yields an Option whose magic number is
the fixed protocol constant regardless of caller input, substitutes the
default codec tag when the caller's tag is empty, and yields the full
default Option when no option or a nil first option is supplied — but it
fails with an error only when more than one option is supplied AND the
first one is non-nil: a nil first option short-circuits to the default
even when further arguments follow. -/
theorem c9_parse_options (heap : List GOption) (opts : List (Option Nat))
    (p : Nat) (b : Option Nat) (rest : List (Option Nat))
    (hp : p < heap.length) (hnil : opts.headD none = none) :
    parseOptions heap [] = (heap, Except.ok ParsedOpt.defaultOpt) ∧
    parseOptions heap opts = (heap, Except.ok ParsedOpt.defaultOpt) ∧
    DefaultOption.MagicNumber = magicNumberConst ∧
    parseOptions heap [some p] =
      (heap.set p
        { heap.getD p default with
            MagicNumber := magicNumberConst,
            CodecType := if (heap.getD p default).CodecType = "" then DefaultOption.CodecType
                         else (heap.getD p default).CodecType },
       Except.ok (ParsedOpt.ptr p)) ∧
    parseOptions heap (some p :: b :: rest) =
      (heap, Except.error "number of options is more than 1") := by
  refine ⟨rfl, ?_, rfl, ?_, ?_⟩
  · unfold parseOptions
    rw [if_pos (Or.inr hnil)]
  · unfold parseOptions
    rw [if_neg (by simp), if_neg (by simp)]
    by_cases hct : (heap.getD p default).CodecType = ""
    · simp only [List.headD_cons, hct, if_pos]
      rfl
    · simp only [List.headD_cons, hct, if_neg, ite_false]
      rfl
  · unfold parseOptions
    rw [if_neg (by simp), if_pos (by simp)]

/-- C9 (counterexample): two option arguments, the first nil: the source's
first branch (`len(opts) == 0 || opts[0] == nil`) fires before the
more-than-one check, so `parseOptions` returns the default instead of the
error the claim requires. -/
theorem c9_counterexample :
    ([none, none] : List (Option Nat)).length > 1 ∧
    parseOptions [] [none, none] = ([], Except.ok ParsedOpt.defaultOpt) := by
  constructor
  · decide
  · rfl

/-- C9 (witness): the amended theorem on a one-record heap, an option with
an empty codec tag, and a nil-headed list of two options. -/
theorem c9_witness :
    parseOptions [⟨7, ""⟩] [] = ([⟨7, ""⟩], Except.ok ParsedOpt.defaultOpt) ∧
    parseOptions [⟨7, ""⟩] [none, some 0] = ([⟨7, ""⟩], Except.ok ParsedOpt.defaultOpt) ∧
    DefaultOption.MagicNumber = magicNumberConst ∧
    parseOptions [⟨7, ""⟩] [some 0] =
      (([⟨7, ""⟩] : List GOption).set 0
        { ([⟨7, ""⟩] : List GOption).getD 0 default with
            MagicNumber := magicNumberConst,
            CodecType := if (([⟨7, ""⟩] : List GOption).getD 0 default).CodecType = ""
                         then DefaultOption.CodecType
                         else (([⟨7, ""⟩] : List GOption).getD 0 default).CodecType },
       Except.ok (ParsedOpt.ptr 0)) ∧
    parseOptions [⟨7, ""⟩] (some 0 :: none :: []) =
      ([⟨7, ""⟩], Except.error "number of options is more than 1") :=
  c9_parse_options [⟨7, ""⟩] [none, some 0] 0 none [] (by decide) (by decide)

/-- C10 (confirmed): with exactly one non-nil option the caller's own
record is mutated in place — the result is the same pointer `p`, and the
heap cell at `p` now carries the forced magic number and the (defaulted
only-if-empty) codec tag; a non-empty caller tag survives. -/
theorem c10_option_mutated_in_place (heap : List GOption) (p : Nat)
    (hp : p < heap.length) :
    (parseOptions heap [some p]).2 = Except.ok (ParsedOpt.ptr p) ∧
    (parseOptions heap [some p]).1 =
      heap.set p
        { heap.getD p default with
            MagicNumber := magicNumberConst,
            CodecType := if (heap.getD p default).CodecType = "" then DefaultOption.CodecType
                         else (heap.getD p default).CodecType } ∧
    ((parseOptions heap [some p]).1.getD p default).MagicNumber = magicNumberConst ∧
    ((heap.getD p default).CodecType ≠ "" →
      ((parseOptions heap [some p]).1.getD p default).CodecType =
        (heap.getD p default).CodecType) := by
  have hmain : parseOptions heap [some p] =
      (heap.set p
        { heap.getD p default with
            MagicNumber := magicNumberConst,
            CodecType := if (heap.getD p default).CodecType = "" then DefaultOption.CodecType
                         else (heap.getD p default).CodecType },
       Except.ok (ParsedOpt.ptr p)) := by
    unfold parseOptions
    rw [if_neg (by simp), if_neg (by simp)]
    by_cases hct : (heap.getD p default).CodecType = ""
    · simp only [List.headD_cons, hct, if_pos]
      rfl
    · simp only [List.headD_cons, hct, if_neg, ite_false]
      rfl
  rw [hmain]
  refine ⟨rfl, rfl, ?_, ?_⟩
  · rw [list_getD_set_self _ _ _ _ hp]
  · intro hne
    rw [list_getD_set_self _ _ _ _ hp]
    show (if (heap.getD p default).CodecType = "" then DefaultOption.CodecType
          else (heap.getD p default).CodecType) = (heap.getD p default).CodecType
    rw [if_neg hne]

/-- C10 (witness): a one-record heap with a non-empty codec tag: the cell
is rewritten in place, the magic number forced, the tag kept. -/
theorem c10_witness :
    (parseOptions [⟨7, "application/json"⟩] [some 0]).2 = Except.ok (ParsedOpt.ptr 0) ∧
    (parseOptions [⟨7, "application/json"⟩] [some 0]).1 =
      ([⟨7, "application/json"⟩] : List GOption).set 0
        { ([⟨7, "application/json"⟩] : List GOption).getD 0 default with
            MagicNumber := magicNumberConst,
            CodecType := if (([⟨7, "application/json"⟩] : List GOption).getD 0 default).CodecType = ""
                         then DefaultOption.CodecType
                         else (([⟨7, "application/json"⟩] : List GOption).getD 0 default).CodecType } ∧
    ((parseOptions [⟨7, "application/json"⟩] [some 0]).1.getD 0 default).MagicNumber =
      magicNumberConst ∧
    ((([⟨7, "application/json"⟩] : List GOption).getD 0 default).CodecType ≠ "" →
      ((parseOptions [⟨7, "application/json"⟩] [some 0]).1.getD 0 default).CodecType =
        (([⟨7, "application/json"⟩] : List GOption).getD 0 default).CodecType) :=
  c10_option_mutated_in_place [⟨7, "application/json"⟩] 0 (by decide)

/-! ## Claim C2: invariant machinery -/

theorem InvPre_congr (s t : ClientState) (hsh : t.shutdown = s.shutdown)
    (hp : t.pending = s.pending) (hc : t.calls = s.calls) (h : InvPre s) : InvPre t := by
  obtain ⟨h1, ⟨h2a, h2b⟩, h3, h4⟩ := h
  refine ⟨by rw [hsh, h1], ⟨by rw [hp]; exact h2a, ?_⟩, ?_, ?_⟩
  · intro p hmem
    rw [hc]
    exact h2b p (by rwa [hp] at hmem)
  · intro p hmem
    show (getCall t p.2).doneCount = 0
    unfold getCall
    rw [hc]
    exact h3 p (by rwa [hp] at hmem)
  · intro cid
    show (getCall t cid).doneCount ≤ 1
    unfold getCall
    rw [hc]
    exact h4 cid

theorem InvPost_congr (s t : ClientState) (hsh : t.shutdown = s.shutdown)
    (hc : t.calls = s.calls) (h : InvPost s) : InvPost t := by
  obtain ⟨h1, h2⟩ := h
  refine ⟨by rw [hsh, h1], ?_⟩
  intro cid
  show (getCall t cid).doneCount ≤ 1
  unfold getCall
  rw [hc]
  exact h2 cid

theorem doneCountOf_extend_lt (s : ClientState) (c0 : CallRec) (cid : Nat)
    (h : cid < s.calls.length) :
    doneCountOf { s with calls := s.calls ++ [c0] } cid = doneCountOf s cid := by
  unfold doneCountOf getCall
  rw [list_getD_append_lt _ _ _ _ h]

theorem doneCountOf_extend_self (s : ClientState) (c0 : CallRec) :
    doneCountOf { s with calls := s.calls ++ [c0] } s.calls.length = c0.doneCount := by
  unfold doneCountOf getCall
  rw [list_getD_append_self]

theorem doneCountOf_extend_gt (s : ClientState) (c0 : CallRec) (cid : Nat)
    (h : s.calls.length < cid) :
    doneCountOf { s with calls := s.calls ++ [c0] } cid = 0 := by
  unfold doneCountOf getCall
  rw [list_getD_append_gt _ _ _ _ h]
  rfl

theorem doneCountOf_default (s : ClientState) (cid : Nat)
    (h : ¬ cid < s.calls.length) : doneCountOf s cid = 0 := by
  unfold doneCountOf getCall
  rw [List.getD_eq_getElem?_getD, List.getElem?_eq_none (by omega), Option.getD_none]
  rfl

theorem InvPre_extend (s : ClientState) (c0 : CallRec) (hc0 : c0.doneCount = 0)
    (h : InvPre s) : InvPre { s with calls := s.calls ++ [c0] } := by
  obtain ⟨h1, ⟨h2a, h2b⟩, h3, h4⟩ := h
  refine ⟨h1, ⟨h2a, ?_⟩, ?_, ?_⟩
  · intro p hmem
    have := h2b p hmem
    simp only [List.length_append, List.length_singleton]
    omega
  · intro p hmem
    rw [doneCountOf_extend_lt s c0 p.2 (h2b p hmem)]
    exact h3 p hmem
  · intro cid
    rcases Nat.lt_trichotomy cid s.calls.length with hlt | heq | hgt
    · rw [doneCountOf_extend_lt s c0 cid hlt]; exact h4 cid
    · subst heq; rw [doneCountOf_extend_self]; omega
    · rw [doneCountOf_extend_gt s c0 cid hgt]; omega

theorem InvPost_extend (s : ClientState) (c0 : CallRec) (hc0 : c0.doneCount = 0)
    (h : InvPost s) : InvPost { s with calls := s.calls ++ [c0] } := by
  obtain ⟨h1, h2⟩ := h
  refine ⟨h1, ?_⟩
  intro cid
  rcases Nat.lt_trichotomy cid s.calls.length with hlt | heq | hgt
  · rw [doneCountOf_extend_lt s c0 cid hlt]; exact h2 cid
  · subst heq; rw [doneCountOf_extend_self]; omega
  · rw [doneCountOf_extend_gt s c0 cid hgt]; omega

theorem updCall_out (cs : List CallRec) (cid : Nat) (f : CallRec → CallRec)
    (h : ¬ cid < cs.length) : updCall cs cid f = cs :=
  List.set_eq_of_length_le (by omega)

theorem resolveWith_out (s : ClientState) (cid : Nat) (e : GoError)
    (h : ¬ cid < s.calls.length) :
    (resolveWith s cid e).calls = s.calls := by
  have h2 : (setCallError s cid e).calls = s.calls := by
    show updCall s.calls cid (fun c => { c with error := some e }) = s.calls
    exact updCall_out _ _ _ h
  calc (resolveWith s cid e).calls
      = updCall (setCallError s cid e).calls cid
          (fun c => { c with doneCount := c.doneCount + 1 }) := rfl
    _ = updCall s.calls cid (fun c => { c with doneCount := c.doneCount + 1 }) := by rw [h2]
    _ = s.calls := updCall_out _ _ _ h

theorem doneCountOf_resolveWith_out (s : ClientState) (cid q : Nat) (e : GoError)
    (h : ¬ cid < s.calls.length) :
    doneCountOf (resolveWith s cid e) q = doneCountOf s q := by
  unfold doneCountOf getCall
  rw [resolveWith_out s cid e h]

theorem InvPre_resolve_nonpending (s : ClientState) (cid : Nat) (e : GoError)
    (h : InvPre s) (hnp : cid ∉ s.pending.map Prod.snd)
    (hdc : doneCountOf s cid = 0) : InvPre (resolveWith s cid e) := by
  obtain ⟨h1, ⟨h2a, h2b⟩, h3, h4⟩ := h
  refine ⟨by rw [resolveWith_shutdown]; exact h1,
    ⟨by rw [resolveWith_pending]; exact h2a, ?_⟩, ?_, ?_⟩
  · intro p hmem
    rw [resolveWith_pending] at hmem
    rw [resolveWith_calls_length]
    exact h2b p hmem
  · intro p hmem
    rw [resolveWith_pending] at hmem
    have hne : p.2 ≠ cid := fun hcontra =>
      hnp (hcontra ▸ mem_map_snd_of_mem hmem)
    rw [doneCountOf_resolveWith_ne s cid p.2 e hne]
    exact h3 p hmem
  · intro q
    by_cases hq : q = cid
    · subst hq
      by_cases hlt : q < s.calls.length
      · rw [doneCountOf_resolveWith_self s q e hlt, hdc]
      · rw [doneCountOf_resolveWith_out s q q e hlt]
        exact h4 q
    · rw [doneCountOf_resolveWith_ne s cid q e hq]
      exact h4 q

theorem InvPost_resolve_zero (s : ClientState) (cid : Nat) (e : GoError)
    (h : InvPost s) (hdc : doneCountOf s cid = 0) : InvPost (resolveWith s cid e) := by
  obtain ⟨h1, h2⟩ := h
  refine ⟨by rw [resolveWith_shutdown]; exact h1, ?_⟩
  intro q
  by_cases hq : q = cid
  · subst hq
    by_cases hlt : q < s.calls.length
    · rw [doneCountOf_resolveWith_self s q e hlt, hdc]
    · rw [doneCountOf_resolveWith_out s q q e hlt]
      exact h2 q
  · rw [doneCountOf_resolveWith_ne s cid q e hq]
    exact h2 q

theorem doneCall_out (s : ClientState) (cid : Nat)
    (h : ¬ cid < s.calls.length) : (doneCall s cid).calls = s.calls := by
  show updCall s.calls cid (fun c => { c with doneCount := c.doneCount + 1 }) = s.calls
  exact updCall_out _ _ _ h

theorem doneCountOf_doneCall_self (s : ClientState) (cid : Nat)
    (h : cid < s.calls.length) :
    doneCountOf (doneCall s cid) cid = doneCountOf s cid + 1 := by
  unfold doneCountOf
  rw [getCall_doneCall_self s cid h]

theorem doneCountOf_doneCall_ne (s : ClientState) (cid q : Nat) (h : q ≠ cid) :
    doneCountOf (doneCall s cid) q = doneCountOf s q := by
  unfold doneCountOf
  rw [getCall_doneCall_ne s cid q h]

theorem InvPre_done_nonpending (s : ClientState) (cid : Nat)
    (h : InvPre s) (hnp : cid ∉ s.pending.map Prod.snd)
    (hdc : doneCountOf s cid = 0) : InvPre (doneCall s cid) := by
  obtain ⟨h1, ⟨h2a, h2b⟩, h3, h4⟩ := h
  refine ⟨h1, ⟨h2a, ?_⟩, ?_, ?_⟩
  · intro p hmem
    rw [show (doneCall s cid).calls.length = s.calls.length from doneCall_calls_length s cid]
    exact h2b p hmem
  · intro p hmem
    have hne : p.2 ≠ cid := fun hcontra =>
      hnp (hcontra ▸ mem_map_snd_of_mem hmem)
    rw [doneCountOf_doneCall_ne s cid p.2 hne]
    exact h3 p hmem
  · intro q
    by_cases hq : q = cid
    · subst hq
      by_cases hlt : q < s.calls.length
      · rw [doneCountOf_doneCall_self s q hlt, hdc]
      · show (getCall (doneCall s q) q).doneCount ≤ 1
        unfold getCall
        rw [doneCall_out s q hlt]
        exact h4 q
    · rw [doneCountOf_doneCall_ne s cid q hq]
      exact h4 q

theorem InvPre_erase (s : ClientState) (k : Nat) (h : InvPre s) :
    InvPre { s with pending := mapErase s.pending k } := by
  obtain ⟨h1, ⟨h2a, h2b⟩, h3, h4⟩ := h
  exact ⟨h1, ⟨map_snd_mapErase_nodup k h2a,
      fun p hmem => h2b p (mem_of_mem_mapErase hmem)⟩,
    fun p hmem => h3 p (mem_of_mem_mapErase hmem), h4⟩

theorem map_snd_mapErase_subset {m : List (Nat × Nat)} {k q : Nat}
    (h : q ∈ (mapErase m k).map Prod.snd) : q ∈ m.map Prod.snd := by
  rcases List.mem_map.mp h with ⟨p, hp, hpq⟩
  exact hpq ▸ mem_map_snd_of_mem (mem_of_mem_mapErase hp)

theorem doneCountOf_updSeq (s : ClientState) (cid q n : Nat) :
    ((updCall s.calls cid (fun c => { c with seq := n })).getD q default).doneCount =
      doneCountOf s q := by
  by_cases hq : q = cid
  · subst hq
    by_cases hlt : q < s.calls.length
    · rw [getD_updCall_self _ _ _ hlt]; rfl
    · rw [updCall_out _ _ _ hlt]; rfl
  · rw [getD_updCall_ne _ _ _ _ hq]; rfl

theorem InvPre_register (s : ClientState) (cid : Nat) (h : InvPre s)
    (hlt : cid < s.calls.length) (hnp : cid ∉ s.pending.map Prod.snd)
    (hdc : doneCountOf s cid = 0) :
    InvPre { s with
        calls := updCall s.calls cid (fun c => { c with seq := s.seq }),
        pending := mapInsert s.pending s.seq cid,
        seq := (s.seq + 1) % U64 } := by
  obtain ⟨h1, ⟨h2a, h2b⟩, h3, h4⟩ := h
  have hcnt : ∀ q, ((updCall s.calls cid (fun c => { c with seq := s.seq })).getD q
      default).doneCount = doneCountOf s q := fun q => doneCountOf_updSeq s cid q s.seq
  refine ⟨h1, ⟨?_, ?_⟩, ?_, ?_⟩
  · rw [map_snd_mapInsert, List.nodup_cons]
    exact ⟨fun hc => hnp (map_snd_mapErase_subset hc), map_snd_mapErase_nodup s.seq h2a⟩
  · intro p hmem
    show p.2 < (updCall s.calls cid (fun c => { c with seq := s.seq })).length
    rw [updCall_length]
    rcases List.mem_cons.mp hmem with heq | htl
    · rw [heq]; exact hlt
    · exact h2b p (mem_of_mem_mapErase htl)
  · intro p hmem
    show ((updCall s.calls cid (fun c => { c with seq := s.seq })).getD p.2
      default).doneCount = 0
    rw [hcnt p.2]
    rcases List.mem_cons.mp hmem with heq | htl
    · rw [heq]; exact hdc
    · exact h3 p (mem_of_mem_mapErase htl)
  · intro q
    show ((updCall s.calls cid (fun c => { c with seq := s.seq })).getD q
      default).doneCount ≤ 1
    rw [hcnt q]
    exact h4 q

theorem InvPre_register_erased (s : ClientState) (cid : Nat) (h : InvPre s)
    (hlt : cid < s.calls.length) :
    InvPre { s with
        calls := updCall s.calls cid (fun c => { c with seq := s.seq }),
        pending := mapErase (mapInsert s.pending s.seq cid) s.seq,
        seq := (s.seq + 1) % U64 } := by
  obtain ⟨h1, ⟨h2a, h2b⟩, h3, h4⟩ := h
  have hcnt : ∀ q, ((updCall s.calls cid (fun c => { c with seq := s.seq })).getD q
      default).doneCount = doneCountOf s q := fun q => doneCountOf_updSeq s cid q s.seq
  rw [mapErase_insert]
  refine ⟨h1, ⟨map_snd_mapErase_nodup s.seq h2a, ?_⟩, ?_, ?_⟩
  · intro p hmem
    show p.2 < (updCall s.calls cid (fun c => { c with seq := s.seq })).length
    rw [updCall_length]
    exact h2b p (mem_of_mem_mapErase hmem)
  · intro p hmem
    show ((updCall s.calls cid (fun c => { c with seq := s.seq })).getD p.2
      default).doneCount = 0
    rw [hcnt p.2]
    exact h3 p (mem_of_mem_mapErase hmem)
  · intro q
    show ((updCall s.calls cid (fun c => { c with seq := s.seq })).getD q
      default).doneCount ≤ 1
    rw [hcnt q]
    exact h4 q

theorem send_preserves_InvPre (s : ClientState) (cid : Nat) (w : Option GoError)
    (h : InvPre s) (hlt : cid < s.calls.length)
    (hnp : cid ∉ s.pending.map Prod.snd) (hdc : doneCountOf s cid = 0) :
    InvPre (send s cid w) := by
  cases hc : s.closing with
  | true =>
    rw [send_flagged s cid w (Or.inl hc)]
    exact InvPre_resolve_nonpending s cid GoError.shutdown h hnp hdc
  | false =>
    cases w with
    | none =>
      rw [send_live_ok s cid hc h.1]
      exact InvPre_congr _ _ rfl rfl rfl (InvPre_register s cid h hlt hnp hdc)
    | some e =>
      rw [send_live_fail s cid e hc h.1]
      have hbase := InvPre_register_erased s cid h hlt
      have hbase2 : InvPre { s with
          calls := updCall s.calls cid (fun c => { c with seq := s.seq }),
          pending := mapErase (mapInsert s.pending s.seq cid) s.seq,
          seq := (s.seq + 1) % U64 } := hbase
      have hnp2 : cid ∉ (mapErase (mapInsert s.pending s.seq cid) s.seq).map Prod.snd := by
        rw [mapErase_insert]
        exact fun hc2 => hnp (map_snd_mapErase_subset hc2)
      have hdc2 : doneCountOf { s with
          calls := updCall s.calls cid (fun c => { c with seq := s.seq }),
          pending := mapErase (mapInsert s.pending s.seq cid) s.seq,
          seq := (s.seq + 1) % U64 } cid = 0 := by
        show ((updCall s.calls cid (fun c => { c with seq := s.seq })).getD cid
          default).doneCount = 0
        rw [doneCountOf_updSeq s cid cid s.seq]
        exact hdc
      exact InvPre_congr _ _ rfl rfl rfl
        (InvPre_resolve_nonpending _ cid e hbase2 hnp2 hdc2)

theorem send_preserves_InvPost (s : ClientState) (cid : Nat) (w : Option GoError)
    (h : InvPost s) (hdc : doneCountOf s cid = 0) : InvPost (send s cid w) := by
  rw [send_flagged s cid w (Or.inr h.1)]
  exact InvPost_resolve_zero s cid GoError.shutdown h hdc

theorem goBody_preserves_InvPre (s : ClientState) (sm : String) (a r : Nat)
    (ch : Chan) (w : Option GoError) (h : InvPre s) :
    InvPre (goBody s sm a r ch w).st := by
  show InvPre (send { s with calls := s.calls ++ [⟨0, sm, a, r, none, 0, ch⟩] }
    s.calls.length w)
  refine send_preserves_InvPre _ _ _ (InvPre_extend s _ rfl h) (by simp) ?_ ?_
  · intro hcontra
    rcases List.mem_map.mp hcontra with ⟨p, hp, hpq⟩
    have := h.2.1.2 p hp
    omega
  · exact doneCountOf_extend_self s _

theorem goBody_preserves_InvPost (s : ClientState) (sm : String) (a r : Nat)
    (ch : Chan) (w : Option GoError) (h : InvPost s) :
    InvPost (goBody s sm a r ch w).st := by
  show InvPost (send { s with calls := s.calls ++ [⟨0, sm, a, r, none, 0, ch⟩] }
    s.calls.length w)
  exact send_preserves_InvPost _ _ _ (InvPost_extend s _ rfl h)
    (doneCountOf_extend_self s _)

theorem goCall_preserves_InvPre (s : ClientState) (sm : String) (a r : Nat)
    (d : Option Chan) (w : Option GoError) (h : InvPre s) :
    InvPre (goCall s sm a r d w).st := by
  cases d with
  | none =>
    show InvPre (goBody { s with nextChan := s.nextChan + 1 } sm a r ⟨s.nextChan, 10⟩ w).st
    exact goBody_preserves_InvPre _ sm a r _ w (InvPre_congr s _ rfl rfl rfl h)
  | some ch =>
    by_cases hz : ch.cap = 0
    · simp only [goCall, if_pos hz]
      exact h
    · simp only [goCall, if_neg hz]
      exact goBody_preserves_InvPre s sm a r ch w h

theorem goCall_preserves_InvPost (s : ClientState) (sm : String) (a r : Nat)
    (d : Option Chan) (w : Option GoError) (h : InvPost s) :
    InvPost (goCall s sm a r d w).st := by
  cases d with
  | none =>
    show InvPost (goBody { s with nextChan := s.nextChan + 1 } sm a r ⟨s.nextChan, 10⟩ w).st
    exact goBody_preserves_InvPost _ sm a r _ w (InvPost_congr s _ rfl rfl h)
  | some ch =>
    by_cases hz : ch.cap = 0
    · simp only [goCall, if_pos hz]
      exact h
    · simp only [goCall, if_neg hz]
      exact goBody_preserves_InvPost s sm a r ch w h

theorem closeClient_fields (s : ClientState) (ccRes : Except GoError Unit) :
    (closeClient s ccRes).1.shutdown = s.shutdown ∧
    (closeClient s ccRes).1.pending = s.pending ∧
    (closeClient s ccRes).1.calls = s.calls := by
  unfold closeClient
  by_cases h : s.closing <;> simp [h]

theorem closeClient_InvPre (s : ClientState) (ccRes : Except GoError Unit)
    (h : InvPre s) : InvPre (closeClient s ccRes).1 :=
  InvPre_congr s _ (closeClient_fields s ccRes).1 (closeClient_fields s ccRes).2.1
    (closeClient_fields s ccRes).2.2 h

theorem closeClient_InvPost (s : ClientState) (ccRes : Except GoError Unit)
    (h : InvPost s) : InvPost (closeClient s ccRes).1 :=
  InvPost_congr s _ (closeClient_fields s ccRes).1 (closeClient_fields s ccRes).2.2 h

theorem recvStep_frame_absent (s : ClientState) (hd : Header) (b : Option GoError)
    (hlk : mapLookup s.pending hd.seq = none) :
    recvStep s (.frame hd b) = ({ s with pending := mapErase s.pending hd.seq }, b) := by
  unfold recvStep removeCall
  dsimp only
  rw [hlk]

theorem recvStep_frame_err (s : ClientState) (hd : Header) (b : Option GoError)
    (cid : Nat) (hlk : mapLookup s.pending hd.seq = some cid) (hne : hd.error ≠ "") :
    recvStep s (.frame hd b) =
      (resolveWith { s with pending := mapErase s.pending hd.seq } cid
        (GoError.str hd.error), b) := by
  unfold recvStep removeCall
  dsimp only
  rw [hlk]
  dsimp only
  rw [if_pos hne]
  rfl

theorem recvStep_frame_ok_bodyok (s : ClientState) (hd : Header) (cid : Nat)
    (hlk : mapLookup s.pending hd.seq = some cid) (hemp : hd.error = "") :
    recvStep s (.frame hd none) =
      (doneCall { s with pending := mapErase s.pending hd.seq } cid, none) := by
  unfold recvStep removeCall
  dsimp only
  rw [hlk]
  dsimp only
  rw [if_neg (by simp [hemp])]

theorem recvStep_frame_ok_bodyfail (s : ClientState) (hd : Header) (cid : Nat)
    (e : GoError) (hlk : mapLookup s.pending hd.seq = some cid) (hemp : hd.error = "") :
    recvStep s (.frame hd (some e)) =
      (resolveWith { s with pending := mapErase s.pending hd.seq } cid
        (GoError.str ("reading body" ++ e.msg)), some e) := by
  unfold recvStep removeCall
  dsimp only
  rw [hlk]
  dsimp only
  rw [if_neg (by simp [hemp])]
  rfl

theorem recvStep_preserves_InvPre (s : ClientState) (f : Frame) (h : InvPre s) :
    InvPre (recvStep s f).1 := by
  cases f with
  | hdrErr e => exact h
  | frame hd b =>
    cases hlk : mapLookup s.pending hd.seq with
    | none =>
      rw [recvStep_frame_absent s hd b hlk]
      exact InvPre_erase s hd.seq h
    | some cid =>
      have hmem : (hd.seq, cid) ∈ s.pending := mem_of_mapLookup hlk
      have hcid0 : doneCountOf s cid = 0 := h.2.2.1 (hd.seq, cid) hmem
      have hnp2 : cid ∉ (mapErase s.pending hd.seq).map Prod.snd :=
        not_mem_map_snd_mapErase_of_lookup h.2.1.1 hlk
      have hbase : InvPre { s with pending := mapErase s.pending hd.seq } :=
        InvPre_erase s hd.seq h
      by_cases hne : hd.error ≠ ""
      · rw [recvStep_frame_err s hd b cid hlk hne]
        exact InvPre_resolve_nonpending _ cid _ hbase hnp2 hcid0
      · push_neg at hne
        cases b with
        | none =>
          rw [recvStep_frame_ok_bodyok s hd cid hlk hne]
          exact InvPre_done_nonpending _ cid hbase hnp2 hcid0
        | some e =>
          rw [recvStep_frame_ok_bodyfail s hd cid e hlk hne]
          exact InvPre_resolve_nonpending _ cid _ hbase hnp2 hcid0

theorem terminate_InvPre_to_Post (s : ClientState) (e : GoError) (h : InvPre s) :
    InvPost (terminateCalls s e) := by
  obtain ⟨h1, ⟨h2a, h2b⟩, h3, h4⟩ := h
  obtain ⟨hp, hs, _, _, hq, hm⟩ := terminateCalls_spec s e h2a h2b
  refine ⟨hs, ?_⟩
  intro q
  by_cases hmemq : q ∈ s.pending.map Prod.snd
  · rcases List.mem_map.mp hmemq with ⟨p, hpmem, hpq⟩
    show (getCall (terminateCalls s e) q).doneCount ≤ 1
    rw [← hpq, hm p hpmem]
    show (getCall s p.2).doneCount + 1 ≤ 1
    have := h3 p hpmem
    unfold doneCountOf at this
    omega
  · show (getCall (terminateCalls s e) q).doneCount ≤ 1
    rw [hq q hmemq]
    exact h4 q

theorem InvPre_fresh : InvPre freshClient := by
  refine ⟨rfl, ⟨List.nodup_nil, ?_⟩, ?_, ?_⟩
  · intro p hmem; cases hmem
  · intro p hmem; cases hmem
  · intro cid
    rw [doneCountOf_default freshClient cid (by simp [freshClient])]
    omega

theorem run_cons (s : ClientState) (a : Action) (l : List Action) :
    run s (a :: l) = run (step s a) l := rfl

theorem run_postTerm (l : List Action) : ∀ s : ClientState, InvPost s →
    postTermOK l = true → InvPost (run s l) := by
  induction l with
  | nil => intro s h _; exact h
  | cons a rest ih =>
    intro s h hwf
    cases a with
    | asend sm a r d w =>
      rw [run_cons]
      exact ih _ (goCall_preserves_InvPost s sm a r d w h) hwf
    | aclose ce =>
      rw [run_cons]
      exact ih _ (closeClient_InvPost s _ h) hwf
    | arecv f => exact absurd hwf (by simp [postTermOK])
    | aterm e => exact absurd hwf (by simp [postTermOK])

theorem run_wf (l : List Action) : ∀ s : ClientState, InvPre s → wfTrace l = true →
    InvPre (run s l) ∨ InvPost (run s l) := by
  induction l with
  | nil => intro s h _; exact Or.inl h
  | cons a rest ih =>
    intro s h hwf
    cases a with
    | asend sm a r d w =>
      rw [run_cons]
      exact ih _ (goCall_preserves_InvPre s sm a r d w h) hwf
    | arecv f =>
      rw [run_cons]
      exact ih _ (recvStep_preserves_InvPre s f h) hwf
    | aclose ce =>
      rw [run_cons]
      exact ih _ (closeClient_InvPre s _ h) hwf
    | aterm e =>
      right
      rw [run_cons]
      exact run_postTerm rest _ (terminate_InvPre_to_Post s e h) hwf

/-- C2 (amended): over every well-formed interleaving of submissions,
receive-loop iterations, one termination and closes, starting from a fresh
client: no Call is ever signaled more than once, and as long as the client
is not shut down no signaled Call is ever present in the pending table
(on the reply path and the send write-failure path removal from the table
happens before the signal).  The exception the source forces: once
`terminateCalls` runs (setting `shutdown`), the Calls it signals remain in
the pending table — see the counterexample. -/
theorem c2_exactly_once_resolution (l : List Action) (hwf : wfTrace l = true) :
    (∀ cid, doneCountOf (exec l) cid ≤ 1) ∧
    ((exec l).shutdown = false →
      ∀ p ∈ (exec l).pending, doneCountOf (exec l) p.2 = 0) := by
  rcases run_wf l freshClient InvPre_fresh hwf with h | h
  · exact ⟨h.2.2.2, fun _ => h.2.2.1⟩
  · refine ⟨h.2, fun hsh => ?_⟩
    have h1 : (exec l).shutdown = true := h.1
    rw [h1] at hsh
    cases hsh

/-- C2 (counterexample): after `terminateCalls` on a client with one
registered call, that call has been signaled (doneCount 1) yet its entry
is still present in the pending table — a Call signaled while present in
the table, refuting the unrestricted claim. -/
theorem c2_counterexample :
    (1, 0) ∈ (terminateCalls c2cex (GoError.str "EOF")).pending ∧
    doneCountOf (terminateCalls c2cex (GoError.str "EOF")) 0 = 1 := by
  decide

/-- C2 (witness): the amended theorem on the concrete well-formed trace
submit / receive matching reply / terminate. -/
theorem c2_witness :
    (∀ cid, doneCountOf (exec c2trace) cid ≤ 1) ∧
    ((exec c2trace).shutdown = false →
      ∀ p ∈ (exec c2trace).pending, doneCountOf (exec c2trace) p.2 = 0) :=
  c2_exactly_once_resolution c2trace (by decide)

end GeeRPC
